import Mathlib

/-!
Verification of the Von-Neumann machine simulator (src/main.py).

The development shallowly embeds the program: Python arbitrary-precision
integers become Lean `Int` (note that `%` and `/` on `Int` are
`Int.emod`/`Int.ediv`, which agree with Python's `%` and `//` for the
positive divisors used here); bit-cell (transistor) states become `Nat`
(the source masks every stored state with `& 1`); Python bitwise
operators on possibly-negative integers are Mathlib's two's-complement
`Int.land`/`Int.lor`/`Int.xor` (whose `testBit` semantics on `-[m+1]`
is the complement of the bits of `m`, exactly Python's semantics);
the blocking `Queue.get` of the bus becomes an `Option`-returning pop
(`none` models the block-forever case, which never happens inside the
stage methods).
-/

namespace VN

/-- src/main.py line 6: BIT_RESOLUTION = 20 -/
def BIT_RESOLUTION : Nat := 20

/-- src/main.py line 7: MAX_VALUE = (2 ** BIT_RESOLUTION) - 1 -/
def MAX_VALUE : Nat := 2 ^ BIT_RESOLUTION - 1

/-- src/main.py line 8: RAM_SIZE = 100 -/
def RAM_SIZE : Nat := 100

/-- src/main.py lines 24-27.  Python:
if value >= (1 << (BIT_RESOLUTION - 1)): value -= (1 << BIT_RESOLUTION);
return value.  (1 << k is 2 ^ k.) -/
def to_signed (value : Int) : Int :=
  if value ≥ 2 ^ (BIT_RESOLUTION - 1) then value - 2 ^ BIT_RESOLUTION else value

/-- src/main.py lines 29-32.  Python:
if value < 0: value += (1 << BIT_RESOLUTION); return value & MAX_VALUE.
The bitwise AND of a (possibly still negative) Python int with the
all-ones mask MAX_VALUE is `Int.land`, Mathlib's two's-complement AND. -/
def to_unsigned (value : Int) : Int :=
  Int.land (if value < 0 then value + 2 ^ BIT_RESOLUTION else value) (MAX_VALUE : Nat)

/-! ### Bus (src/main.py lines 55-63) -/

/-- The Bus's Queue of words, head = front of the queue. -/
abbrev Bus := List Int

/-- Bus.write (line 62): append to the tail. -/
def bus_write (b : Bus) (value : Int) : Bus := b ++ [value]

/-- Bus.read (line 59): pop the head.  Python's Queue.get blocks forever
on an empty queue; that case is modelled as `none`. -/
def bus_read : Bus → Option (Int × Bus)
  | [] => none
  | v :: rest => some (v, rest)

/-- Sequence of bus writes (used to state the FIFO claim). -/
def bus_write_all (b : Bus) (vs : List Int) : Bus := vs.foldl bus_write b

/-- n successive bus reads, collecting the values in order. -/
def bus_read_n : Nat → Bus → Option (List Int × Bus)
  | 0, b => some ([], b)
  | n + 1, b =>
    match bus_read b with
    | none => none
    | some (v, b1) =>
      match bus_read_n n b1 with
      | none => none
      | some (vs, b2) => some (v :: vs, b2)

/-! ### Register (src/main.py lines 65-103) -/

/-- Register storage: transistor states indexed by bit position.  The
Python list has exactly BIT_RESOLUTION entries and is only indexed below
BIT_RESOLUTION; Transistor.set (line 73) masks every stored state with
`& 1` and the initial state is 0. -/
abbrev RegData := Nat → Nat

/-- The unsigned value accumulated by Register.get (lines 87-90):
value |= data[i].get() << i, for i in range(BIT_RESOLUTION). -/
def reg_raw (d : RegData) : Nat :=
  (List.range BIT_RESOLUTION).foldl (fun value i => value ||| (d i <<< i)) 0

/-- Register.get (lines 87-91): the signed reading of the bit pattern. -/
def reg_get (d : RegData) : Int := to_signed (reg_raw d)

/-- Register.set (lines 93-97): value = to_unsigned(value), then
data[i].set((value >> i) & 1) for i in range(BIT_RESOLUTION).
to_unsigned is nonnegative, so Python's shift/mask on it is the
natural-number one (hence the toNat). -/
def reg_set (d : RegData) (value : Int) : RegData :=
  fun i => if i < BIT_RESOLUTION then ((to_unsigned value).toNat >>> i) &&& 1 else d i

/-- Register.read_from_bus (lines 99-100): set(bus.read()). -/
def reg_read_from_bus (d : RegData) (b : Bus) : Option (RegData × Bus) :=
  match bus_read b with
  | none => none
  | some (v, b1) => some (reg_set d v, b1)

/-- Register.write_to_bus (lines 102-103): bus.write(get()). -/
def reg_write_to_bus (d : RegData) (b : Bus) : Bus := bus_write b (reg_get d)

/-! ### RAM (src/main.py lines 105-130) -/

/-- RAM cells: address → bit position → transistor state.  The Python
list has RAM_SIZE = 100 cells and is indexed with the word coming off
the bus; every claim below constrains addresses to the valid range
0..99, on which this total-function model agrees with the Python list. -/
abbrev RamData := Int → RegData

/-- RAM.get (lines 112-116): same bit accumulation as Register.get. -/
def ram_get (cells : RamData) (address : Int) : Int :=
  to_signed (reg_raw (cells address))

/-- RAM.set (lines 118-121): same bit spreading as Register.set,
at one address. -/
def ram_set (cells : RamData) (address value : Int) : RamData :=
  fun a i => if a = address ∧ i < BIT_RESOLUTION
    then ((to_unsigned value).toNat >>> i) &&& 1 else cells a i

/-- RAM.read_from_bus (lines 123-125): address = bus.read();
bus.write(get(address)). -/
def ram_read_from_bus (cells : RamData) (b : Bus) : Option Bus :=
  match bus_read b with
  | none => none
  | some (address, b1) => some (bus_write b1 (ram_get cells address))

/-- RAM.write_to_bus (lines 127-130): address = bus.read();
value = bus.read(); set(address, value). -/
def ram_write_to_bus (cells : RamData) (b : Bus) : Option (RamData × Bus) :=
  match bus_read b with
  | none => none
  | some (address, b1) =>
    match bus_read b1 with
    | none => none
    | some (value, b2) => some (ram_set cells address value, b2)

/-- Every transistor of the RAM holds 0 or 1.  The Python code
establishes this invariant: cells start at 0 and Transistor.set masks
with `& 1`. -/
def RamWF (cells : RamData) : Prop := ∀ a i, cells a i ≤ 1

/-! ### ALU (src/main.py lines 132-155) -/

/-- ALU.add (lines 133-135):
to_signed((to_unsigned(val1) + to_unsigned(val2)) & MAX_VALUE). -/
def ALU.add (val1 val2 : Int) : Int :=
  to_signed (Int.land (to_unsigned val1 + to_unsigned val2) (MAX_VALUE : Nat))

/-- ALU.sub (lines 137-139):
to_signed((to_unsigned(val1) - to_unsigned(val2)) & MAX_VALUE). -/
def ALU.sub (val1 val2 : Int) : Int :=
  to_signed (Int.land (to_unsigned val1 - to_unsigned val2) (MAX_VALUE : Nat))

/-- ALU.and_ (lines 141-143): val1 & val2 directly on the signed ints. -/
def ALU.and_ (val1 val2 : Int) : Int := Int.land val1 val2

/-- ALU.or_ (lines 145-147): val1 | val2 directly on the signed ints. -/
def ALU.or_ (val1 val2 : Int) : Int := Int.lor val1 val2

/-- ALU.not_ (lines 149-151): to_signed(~to_unsigned(val1)). -/
def ALU.not_ (val1 : Int) : Int := to_signed (Int.lnot (to_unsigned val1))

/-- ALU.xor_ (lines 153-155): val1 ^ val2 directly on the signed ints. -/
def ALU.xor_ (val1 val2 : Int) : Int := Int.xor val1 val2

/-! ### Control Unit (src/main.py lines 157-232) -/

/-- CU state (lines 158-172): the bus, the five registers, the RAM and
the two pipeline latches.  The loader-only fields (variables,
next_variable_address) and the console printing are outside the
modelled core. -/
structure CU where
  bus : Bus
  pc : RegData
  mar : RegData
  mdr : RegData
  cir : RegData
  accumulator : RegData
  ram : RamData
  pipeline_fetch : Option Int
  pipeline_decode : Option (Int × Int)

/-- CU.fetch (lines 174-180): mar.set(pc.get()); bus.write(mar.get());
ram.read_from_bus(); mdr.read_from_bus(); pc.set(pc.get()+1);
pipeline_fetch = mdr.get(). -/
def fetch (s : CU) : Option CU :=
  let mar1 := reg_set s.mar (reg_get s.pc)
  let bus1 := bus_write s.bus (reg_get mar1)
  match ram_read_from_bus s.ram bus1 with
  | none => none
  | some bus2 =>
    match reg_read_from_bus s.mdr bus2 with
    | none => none
    | some (mdr1, bus3) =>
      some { s with
        bus := bus3, mar := mar1, mdr := mdr1,
        pc := reg_set s.pc (reg_get s.pc + 1),
        pipeline_fetch := some (reg_get mdr1) }

/-- CU.decode (lines 182-188): if pipeline_fetch is present,
opcode = (instruction >> 16) & 0xF, operand = instruction & 0xFFFF,
pipeline_decode = (opcode, operand), pipeline_fetch = None. -/
def decode (s : CU) : CU :=
  match s.pipeline_fetch with
  | none => s
  | some instruction =>
    { s with
      pipeline_decode := some (Int.land (instruction >>> (16 : Int)) 15,
                               Int.land instruction 65535),
      pipeline_fetch := none }

/-- How one CU.execute call ends: a normal return / exit("Halt") on
HLT (line 228) / the ValueError raised on an unknown opcode (line 230). -/
inductive Outcome where
  | next : Outcome
  | halted : Outcome
  | fault : Outcome
deriving DecidableEq

/-- Result of CU.execute: the outcome, the state at the moment control
leaves the method (exit/raise skip the rest of the method, including
the clearing of pipeline_decode), and the value printed by OUT. -/
structure ExecResult where
  outcome : Outcome
  state : CU
  output : Option Int

/-- CU.execute (lines 190-232), with inp the value that int(input())
would produce for INP.  The opcode numbers come from the instructions
dict (lines 10-22): LDA 0x1, STA 0x2, ADD 0x3, SUB 0x4, AND 0x5, OR 0x6,
NOT 0x7, XOR 0x8, INP 0x9, OUT 0xA, HLT 0xB.  The trailing
prettyprint(self) is console-only. -/
def execute (s : CU) (inp : Int) : Option ExecResult :=
  match s.pipeline_decode with
  | none => some ⟨Outcome.next, s, none⟩
  | some (opcode, operand) =>
    if opcode = 1 then -- LDA
      match ram_read_from_bus s.ram (bus_write s.bus operand) with
      | none => none
      | some bus2 =>
        match reg_read_from_bus s.accumulator bus2 with
        | none => none
        | some (acc1, bus3) =>
          some ⟨Outcome.next,
            { s with bus := bus3, accumulator := acc1, pipeline_decode := none }, none⟩
    else if opcode = 2 then -- STA
      match ram_write_to_bus s.ram
          (bus_write (bus_write s.bus operand) (reg_get s.accumulator)) with
      | none => none
      | some (ram1, bus3) =>
        some ⟨Outcome.next,
          { s with bus := bus3, ram := ram1, pipeline_decode := none }, none⟩
    else if opcode = 3 then -- ADD
      match ram_read_from_bus s.ram (bus_write s.bus operand) with
      | none => none
      | some bus2 =>
        match bus_read bus2 with
        | none => none
        | some (v, bus3) =>
          some ⟨Outcome.next,
            { s with
              bus := bus3,
              accumulator := reg_set s.accumulator (ALU.add (reg_get s.accumulator) v),
              pipeline_decode := none }, none⟩
    else if opcode = 4 then -- SUB
      match ram_read_from_bus s.ram (bus_write s.bus operand) with
      | none => none
      | some bus2 =>
        match bus_read bus2 with
        | none => none
        | some (v, bus3) =>
          some ⟨Outcome.next,
            { s with
              bus := bus3,
              accumulator := reg_set s.accumulator (ALU.sub (reg_get s.accumulator) v),
              pipeline_decode := none }, none⟩
    else if opcode = 5 then -- AND
      match ram_read_from_bus s.ram (bus_write s.bus operand) with
      | none => none
      | some bus2 =>
        match bus_read bus2 with
        | none => none
        | some (v, bus3) =>
          some ⟨Outcome.next,
            { s with
              bus := bus3,
              accumulator := reg_set s.accumulator (ALU.and_ (reg_get s.accumulator) v),
              pipeline_decode := none }, none⟩
    else if opcode = 6 then -- OR
      match ram_read_from_bus s.ram (bus_write s.bus operand) with
      | none => none
      | some bus2 =>
        match bus_read bus2 with
        | none => none
        | some (v, bus3) =>
          some ⟨Outcome.next,
            { s with
              bus := bus3,
              accumulator := reg_set s.accumulator (ALU.or_ (reg_get s.accumulator) v),
              pipeline_decode := none }, none⟩
    else if opcode = 7 then -- NOT
      some ⟨Outcome.next,
        { s with
          accumulator := reg_set s.accumulator (ALU.not_ (reg_get s.accumulator)),
          pipeline_decode := none }, none⟩
    else if opcode = 8 then -- XOR
      match ram_read_from_bus s.ram (bus_write s.bus operand) with
      | none => none
      | some bus2 =>
        match bus_read bus2 with
        | none => none
        | some (v, bus3) =>
          some ⟨Outcome.next,
            { s with
              bus := bus3,
              accumulator := reg_set s.accumulator (ALU.xor_ (reg_get s.accumulator) v),
              pipeline_decode := none }, none⟩
    else if opcode = 9 then -- INP
      some ⟨Outcome.next,
        { s with
          accumulator := reg_set s.accumulator inp, pipeline_decode := none }, none⟩
    else if opcode = 10 then -- OUT
      some ⟨Outcome.next, { s with pipeline_decode := none },
        some (reg_get s.accumulator)⟩
    else if opcode = 11 then -- HLT: exit("Halt") leaves execute here
      some ⟨Outcome.halted, s, none⟩
    else -- raise ValueError: nothing was mutated before the raise
      some ⟨Outcome.fault, s, none⟩

/-! ### Concrete test states -/

/-- A register whose every transistor is 0 (the initial state). -/
def zeroReg : RegData := fun _ => 0

/-- A RAM whose every transistor is 0 (the initial state). -/
def zeroCells : RamData := fun _ _ => 0

/-- The freshly constructed CU (lines 158-172): empty bus, all-zero
registers and RAM, both latches empty. -/
def CU0 : CU :=
  { bus := [], pc := zeroReg, mar := zeroReg, mdr := zeroReg, cir := zeroReg,
    accumulator := zeroReg, ram := zeroCells,
    pipeline_fetch := none, pipeline_decode := none }

/-- A CU about to decode the all-ones instruction word (signed value -1). -/
def CUdec : CU := { CU0 with pipeline_fetch := some (-1) }

/-- A CU about to execute the undefined opcode 0x0. -/
def CUbad : CU := { CU0 with pipeline_decode := some (0, 0) }

/-- A CU about to execute LDA 0. -/
def CUlda : CU := { CU0 with pipeline_decode := some (1, 0) }

/-! ### Supporting lemmas about masking and the conversions -/

theorem ldiff_two_pow_sub_one (n j : Nat) :
    Nat.ldiff (2 ^ n - 1) j = 2 ^ n - 1 - j % 2 ^ n := by
  have hlt : j % 2 ^ n < 2 ^ n := Nat.mod_lt _ (Nat.two_pow_pos n)
  have hrw : 2 ^ n - 1 - j % 2 ^ n = 2 ^ n - (j % 2 ^ n + 1) := by omega
  rw [hrw]
  apply Nat.eq_of_testBit_eq
  intro i
  rw [Nat.testBit_ldiff, Nat.testBit_two_pow_sub_succ hlt, Nat.testBit_two_pow_sub_one,
    Nat.testBit_mod_two_pow]
  by_cases h : i < n <;> simp [h]

/-- Bitwise AND with the 20-bit all-ones mask is reduction mod 2^20, also
for negative integers (this is what `value & MAX_VALUE` does in Python). -/
theorem land_mask20 (x : Int) : Int.land x 1048575 = x % 1048576 := by
  cases x with
  | ofNat m =>
    have h1 : Int.land (Int.ofNat m) 1048575 =
        ((m &&& 1048575 : Nat) : Int) := rfl
    have h2 : m &&& 1048575 = m % 1048576 := by
      have := Nat.and_pow_two_sub_one_eq_mod m 20
      norm_num at this
      exact this
    rw [h1, h2]
    show ((m % 1048576 : Nat) : Int) = (m : Int) % 1048576
    omega
  | negSucc m =>
    have h1 : Int.land (Int.negSucc m) 1048575 =
        ((Nat.ldiff 1048575 m : Nat) : Int) := rfl
    have h2 : Nat.ldiff 1048575 m = 1048575 - m % 1048576 := by
      have := ldiff_two_pow_sub_one 20 m
      norm_num at this
      exact this
    rw [h1, h2, Int.negSucc_eq]
    omega

/-- Bitwise AND with the 16-bit all-ones mask (`instruction & 0xFFFF`). -/
theorem land_mask16 (x : Int) : Int.land x 65535 = x % 65536 := by
  cases x with
  | ofNat m =>
    have h1 : Int.land (Int.ofNat m) 65535 =
        ((m &&& 65535 : Nat) : Int) := rfl
    have h2 : m &&& 65535 = m % 65536 := by
      have := Nat.and_pow_two_sub_one_eq_mod m 16
      norm_num at this
      exact this
    rw [h1, h2]
    show ((m % 65536 : Nat) : Int) = (m : Int) % 65536
    omega
  | negSucc m =>
    have h1 : Int.land (Int.negSucc m) 65535 =
        ((Nat.ldiff 65535 m : Nat) : Int) := rfl
    have h2 : Nat.ldiff 65535 m = 65535 - m % 65536 := by
      have := ldiff_two_pow_sub_one 16 m
      norm_num at this
      exact this
    rw [h1, h2, Int.negSucc_eq]
    omega

/-- Bitwise AND with the 4-bit all-ones mask (`... & 0xF`). -/
theorem land_mask4 (x : Int) : Int.land x 15 = x % 16 := by
  cases x with
  | ofNat m =>
    have h1 : Int.land (Int.ofNat m) 15 =
        ((m &&& 15 : Nat) : Int) := rfl
    have h2 : m &&& 15 = m % 16 := by
      have := Nat.and_pow_two_sub_one_eq_mod m 4
      norm_num at this
      exact this
    rw [h1, h2]
    show ((m % 16 : Nat) : Int) = (m : Int) % 16
    omega
  | negSucc m =>
    have h1 : Int.land (Int.negSucc m) 15 =
        ((Nat.ldiff 15 m : Nat) : Int) := rfl
    have h2 : Nat.ldiff 15 m = 15 - m % 16 := by
      have := ldiff_two_pow_sub_one 4 m
      norm_num at this
      exact this
    rw [h1, h2, Int.negSucc_eq]
    omega

/-- Closed form of to_signed with numeric literals. -/
theorem to_signed_eq (v : Int) :
    to_signed v = if v ≥ 524288 then v - 1048576 else v := by
  unfold to_signed BIT_RESOLUTION
  norm_num

/-- Closed form of to_unsigned: it wraps any integer into [0, 2^20)
by reduction mod 2^20. -/
theorem to_unsigned_eq (v : Int) : to_unsigned v = v % 1048576 := by
  unfold to_unsigned MAX_VALUE BIT_RESOLUTION
  norm_num
  rw [land_mask20]
  by_cases hv : v < 0 <;> simp [hv]

theorem to_unsigned_nonneg (v : Int) : 0 ≤ to_unsigned v := by
  rw [to_unsigned_eq]; omega

theorem to_unsigned_lt (v : Int) : to_unsigned v < 1048576 := by
  rw [to_unsigned_eq]; omega

theorem to_signed_range (u : Int) (h0 : 0 ≤ u) (h1 : u < 1048576) :
    -524288 ≤ to_signed u ∧ to_signed u ≤ 524287 := by
  rw [to_signed_eq]
  by_cases h : u ≥ 524288 <;> simp [h] <;> omega

/-- to_signed of the wrap of an in-range value gives the value back. -/
theorem to_signed_emod_small (v : Int) (h1 : -524288 ≤ v) (h2 : v ≤ 524287) :
    to_signed (v % 2 ^ 20) = v := by
  rw [to_signed_eq]
  norm_num
  split <;> omega

/-! ### Register reconstruction lemmas -/

theorem foldl_or_congr (d e : RegData) (n : Nat) (h : ∀ i, i < n → d i = e i) :
    ∀ a : Nat, (List.range n).foldl (fun value i => value ||| (d i <<< i)) a =
      (List.range n).foldl (fun value i => value ||| (e i <<< i)) a := by
  induction n with
  | zero => intro a; rfl
  | succ n ih =>
    intro a
    rw [List.range_succ]
    simp only [List.foldl_append, List.foldl_cons, List.foldl_nil]
    rw [ih (fun i hi => h i (by omega)) a, h n (by omega)]

/-- Reading back the bit spreading of u recovers u mod 2^n. -/
theorem foldl_or_bits (u : Nat) :
    ∀ n, (List.range n).foldl (fun value i => value ||| (((u >>> i) &&& 1) <<< i)) 0 =
      u % 2 ^ n := by
  intro n
  induction n with
  | zero => simp [Nat.mod_one]
  | succ n ih =>
    rw [List.range_succ]
    simp only [List.foldl_append, List.foldl_cons, List.foldl_nil]
    rw [ih]
    have h1 : (u >>> n) &&& 1 = u / 2 ^ n % 2 := by
      rw [Nat.and_one_is_mod, Nat.shiftRight_eq_div_pow]
    have h3 : u % 2 ^ n < 2 ^ n := Nat.mod_lt _ (Nat.two_pow_pos n)
    rw [h1, Nat.shiftLeft_eq, Nat.mul_comm (u / 2 ^ n % 2) (2 ^ n), Nat.or_comm,
      ← Nat.mul_add_lt_is_or h3, Nat.mod_pow_succ]
    omega

theorem reg_raw_set (d : RegData) (v : Int) :
    reg_raw (reg_set d v) = (to_unsigned v).toNat % 2 ^ 20 := by
  unfold reg_raw reg_set
  rw [foldl_or_congr _ (fun i => (((to_unsigned v).toNat >>> i) &&& 1))
    BIT_RESOLUTION (fun i hi => by simp [hi])]
  exact foldl_or_bits (to_unsigned v).toNat BIT_RESOLUTION

/-- set-then-get on a register produces the wrapped signed value. -/
theorem reg_get_set (d : RegData) (v : Int) :
    reg_get (reg_set d v) = to_signed (v % 2 ^ 20) := by
  unfold reg_get
  rw [reg_raw_set]
  congr 1
  have h1 := to_unsigned_eq v
  have h2 := to_unsigned_nonneg v
  have h3 := to_unsigned_lt v
  norm_num
  omega

/-- Transistor states are at most 1, so the accumulated raw value of a
register fits in 20 bits. -/
theorem foldl_or_lt (d : RegData) (h : ∀ i, d i ≤ 1) :
    ∀ n, (List.range n).foldl (fun value i => value ||| (d i <<< i)) 0 < 2 ^ n := by
  intro n
  induction n with
  | zero => simp
  | succ n ih =>
    rw [List.range_succ]
    simp only [List.foldl_append, List.foldl_cons, List.foldl_nil]
    apply Nat.or_lt_two_pow
    · have : (2 : Nat) ^ n < 2 ^ (n + 1) := by rw [Nat.pow_succ]; omega
      omega
    · rw [Nat.shiftLeft_eq]
      have h1 : d n * 2 ^ n ≤ 1 * 2 ^ n := Nat.mul_le_mul_right _ (h n)
      rw [Nat.pow_succ]
      omega

theorem reg_raw_lt (d : RegData) (h : ∀ i, d i ≤ 1) : reg_raw d < 2 ^ 20 :=
  foldl_or_lt d h BIT_RESOLUTION

theorem reg_get_range (d : RegData) (h : ∀ i, d i ≤ 1) :
    -524288 ≤ reg_get d ∧ reg_get d ≤ 524287 := by
  unfold reg_get
  apply to_signed_range
  · positivity
  · have := reg_raw_lt d h
    norm_num
    omega

/-- A word read from a well-formed RAM cell is a signed 20-bit value. -/
theorem ram_get_range (cells : RamData) (a : Int) (h : ∀ i, cells a i ≤ 1) :
    -524288 ≤ ram_get cells a ∧ ram_get cells a ≤ 524287 :=
  reg_get_range (cells a) h

/-! ### The FETCH stage, evaluated -/

/-- Evaluation of CU.fetch from an empty bus and a valid PC value. -/
theorem fetch_spec (s : CU) (p : Int) (hbus : s.bus = [])
    (hpc : reg_get s.pc = p) (hp0 : 0 ≤ p) (hp1 : p ≤ 99) :
    fetch s = some { s with
      bus := [],
      mar := reg_set s.mar (reg_get s.pc),
      mdr := reg_set s.mdr (ram_get s.ram p),
      pc := reg_set s.pc (reg_get s.pc + 1),
      pipeline_fetch := some (reg_get (reg_set s.mdr (ram_get s.ram p))) } := by
  have hmar : reg_get (reg_set s.mar (reg_get s.pc)) = p := by
    rw [hpc, reg_get_set]
    exact to_signed_emod_small p (by omega) (by omega)
  simp only [fetch, ram_read_from_bus, reg_read_from_bus, hbus, bus_write,
    List.nil_append, List.singleton_append, bus_read, hmar]

/-! ### Claim theorems (part 1) -/

/-- Claim C1: for every signed value v in [-2^19, 2^19 - 1],
to_signed (to_unsigned v) = v, where to_unsigned wraps any integer into
[0, 2^20) via modulo 2^20. -/
theorem round_trip (v : Int) (hlo : -2 ^ 19 ≤ v) (hhi : v ≤ 2 ^ 19 - 1) :
    to_signed (to_unsigned v) = v ∧ to_unsigned v = v % 2 ^ 20 := by
  rw [to_unsigned_eq, to_signed_eq]
  norm_num at hlo hhi ⊢
  by_cases h : v % 1048576 ≥ 524288 <;> simp [h] <;> omega

theorem round_trip_witness :
    -2 ^ 19 ≤ (-5 : Int) ∧ (-5 : Int) ≤ 2 ^ 19 - 1 ∧
      (to_signed (to_unsigned (-5)) = -5 ∧ to_unsigned (-5) = (-5 : Int) % 2 ^ 20) :=
  ⟨by norm_num, by norm_num, round_trip (-5) (by norm_num) (by norm_num)⟩

/-- Claim C2: for every integer x (inside or outside the 20-bit range),
Register.set(x) followed by Register.get() returns to_signed (x mod 2^20),
which lies in [-2^19, 2^19 - 1]; in particular set(2^19) reads back as
-2^19. -/
theorem register_set_then_get (d : RegData) (x : Int) :
    reg_get (reg_set d x) = to_signed (x % 2 ^ 20) ∧
    -2 ^ 19 ≤ reg_get (reg_set d x) ∧ reg_get (reg_set d x) ≤ 2 ^ 19 - 1 ∧
    reg_get (reg_set d (2 ^ 19)) = -2 ^ 19 := by
  have h1 := reg_get_set d x
  have h2 : -524288 ≤ reg_get (reg_set d x) ∧ reg_get (reg_set d x) ≤ 524287 := by
    rw [h1]
    apply to_signed_range <;> norm_num <;> omega
  refine ⟨h1, by norm_num; omega, by norm_num; omega, ?_⟩
  rw [reg_get_set d (2 ^ 19), to_signed_eq]
  norm_num

/-- Claim C3: on signed 20-bit words, ALU.add and ALU.sub compute the
two's-complement wrap of the unsigned sum/difference; in particular
ALU.add (2^19 - 1) 1 = -2^19 and ALU.sub (-2^19) 1 = 2^19 - 1. -/
theorem alu_add_sub_wrap (a b : Int)
    (ha1 : -2 ^ 19 ≤ a) (ha2 : a ≤ 2 ^ 19 - 1)
    (hb1 : -2 ^ 19 ≤ b) (hb2 : b ≤ 2 ^ 19 - 1) :
    ALU.add a b = to_signed ((to_unsigned a + to_unsigned b) % 2 ^ 20) ∧
    ALU.sub a b = to_signed ((to_unsigned a - to_unsigned b) % 2 ^ 20) ∧
    ALU.add (2 ^ 19 - 1) 1 = -2 ^ 19 ∧
    ALU.sub (-2 ^ 19) 1 = 2 ^ 19 - 1 := by
  have hmask : ((MAX_VALUE : Nat) : Int) = 1048575 := by norm_num [MAX_VALUE, BIT_RESOLUTION]
  have hadd : ∀ x y : Int, ALU.add x y = to_signed ((to_unsigned x + to_unsigned y) % 2 ^ 20) := by
    intro x y
    unfold ALU.add
    rw [hmask, land_mask20]
    norm_num
  have hsub : ∀ x y : Int, ALU.sub x y = to_signed ((to_unsigned x - to_unsigned y) % 2 ^ 20) := by
    intro x y
    unfold ALU.sub
    rw [hmask, land_mask20]
    norm_num
  refine ⟨hadd a b, hsub a b, ?_, ?_⟩
  · rw [hadd, to_signed_eq]
    rw [to_unsigned_eq, to_unsigned_eq]
    norm_num
  · rw [hsub, to_signed_eq]
    rw [to_unsigned_eq, to_unsigned_eq]
    norm_num

theorem alu_add_sub_wrap_witness :
    (-2 ^ 19 ≤ (7 : Int) ∧ (7 : Int) ≤ 2 ^ 19 - 1 ∧
     -2 ^ 19 ≤ (-9 : Int) ∧ (-9 : Int) ≤ 2 ^ 19 - 1) ∧
    (ALU.add 7 (-9) = to_signed ((to_unsigned 7 + to_unsigned (-9)) % 2 ^ 20) ∧
     ALU.sub 7 (-9) = to_signed ((to_unsigned 7 - to_unsigned (-9)) % 2 ^ 20) ∧
     ALU.add (2 ^ 19 - 1) 1 = -2 ^ 19 ∧
     ALU.sub (-2 ^ 19) 1 = 2 ^ 19 - 1) :=
  ⟨⟨by norm_num, by norm_num, by norm_num, by norm_num⟩,
    alu_add_sub_wrap 7 (-9) (by norm_num) (by norm_num) (by norm_num) (by norm_num)⟩

/-- Claim C4: from a state with an empty bus and PC holding a valid
address p in [0, 99] and a well-formed RAM, one FETCH sets MAR to p,
sets MDR to the word at memory address p, increments PC to p + 1, puts
MDR's value in the fetched latch, and changes nothing else: the
accumulator, CIR, every memory cell and the decoded latch are unchanged
and the bus is empty again. -/
theorem fetch_stage (s : CU) (p : Int) (hbus : s.bus = [])
    (hpc : reg_get s.pc = p) (hp0 : 0 ≤ p) (hp1 : p ≤ 99) (hram : RamWF s.ram) :
    ∃ s2, fetch s = some s2 ∧
      reg_get s2.mar = p ∧ reg_get s2.mdr = ram_get s.ram p ∧
      reg_get s2.pc = p + 1 ∧
      s2.pipeline_fetch = some (ram_get s.ram p) ∧
      s2.accumulator = s.accumulator ∧ s2.cir = s.cir ∧ s2.ram = s.ram ∧
      s2.pipeline_decode = s.pipeline_decode ∧ s2.bus = [] := by
  have hw := ram_get_range s.ram p (hram p)
  have hmdr : reg_get (reg_set s.mdr (ram_get s.ram p)) = ram_get s.ram p := by
    rw [reg_get_set]
    exact to_signed_emod_small _ (by omega) (by omega)
  refine ⟨_, fetch_spec s p hbus hpc hp0 hp1, ?_, ?_, ?_, ?_, rfl, rfl, rfl, rfl, rfl⟩
  · show reg_get (reg_set s.mar (reg_get s.pc)) = p
    rw [hpc, reg_get_set]
    exact to_signed_emod_small p (by omega) (by omega)
  · exact hmdr
  · show reg_get (reg_set s.pc (reg_get s.pc + 1)) = p + 1
    rw [hpc, reg_get_set]
    exact to_signed_emod_small _ (by omega) (by omega)
  · show some (reg_get (reg_set s.mdr (ram_get s.ram p))) = some (ram_get s.ram p)
    rw [hmdr]

theorem fetch_stage_witness :
    (CU0.bus = [] ∧ reg_get CU0.pc = 0 ∧ (0 : Int) ≤ 0 ∧ (0 : Int) ≤ 99 ∧ RamWF CU0.ram) ∧
    (∃ s2, fetch CU0 = some s2 ∧
      reg_get s2.mar = 0 ∧ reg_get s2.mdr = ram_get CU0.ram 0 ∧
      reg_get s2.pc = 0 + 1 ∧
      s2.pipeline_fetch = some (ram_get CU0.ram 0) ∧
      s2.accumulator = CU0.accumulator ∧ s2.cir = CU0.cir ∧ s2.ram = CU0.ram ∧
      s2.pipeline_decode = CU0.pipeline_decode ∧ s2.bus = []) :=
  ⟨⟨rfl, by decide, by decide, by decide, fun a i => Nat.zero_le _⟩,
    fetch_stage CU0 0 rfl (by decide) (by decide) (by decide) (fun a i => Nat.zero_le _)⟩

/-- Claim C7: a RAM write to address a never changes the word stored at
a distinct valid address b. -/
theorem ram_isolation (cells : RamData) (a b v : Int) (hab : a ≠ b)
    (ha1 : 0 ≤ a) (ha2 : a ≤ 99) (hb1 : 0 ≤ b) (hb2 : b ≤ 99) :
    ram_get (ram_set cells a v) b = ram_get cells b := by
  unfold ram_get
  have hba : b ≠ a := Ne.symm hab
  have h : (ram_set cells a v) b = cells b := by
    funext i
    simp [ram_set, hba]
  rw [h]

theorem ram_isolation_witness :
    ((0 : Int) ≠ 1 ∧ (0 : Int) ≤ 0 ∧ (0 : Int) ≤ 99 ∧ (0 : Int) ≤ 1 ∧ (1 : Int) ≤ 99) ∧
    ram_get (ram_set zeroCells 0 7) 1 = ram_get zeroCells 1 :=
  ⟨⟨by decide, by decide, by decide, by decide, by decide⟩,
    ram_isolation zeroCells 0 1 7 (by decide) (by decide) (by decide) (by decide) (by decide)⟩

theorem bus_write_all_eq (b : Bus) (vs : List Int) : bus_write_all b vs = b ++ vs := by
  induction vs generalizing b with
  | nil => simp [bus_write_all]
  | cons v vs ih =>
    show bus_write_all (bus_write b v) vs = b ++ v :: vs
    rw [ih, bus_write]
    simp

theorem bus_read_n_append (vs rest : List Int) :
    bus_read_n vs.length (vs ++ rest) = some (vs, rest) := by
  induction vs with
  | nil => rfl
  | cons v vs ih => simp [bus_read_n, bus_read, ih]

/-- Claim C9: the bus is a strict FIFO; writing v1, v2, v3 and reading
three times yields v1, v2, v3, and in general any non-empty sequence of
writes followed by as many reads returns the values in write order. -/
theorem bus_fifo :
    (∀ v1 v2 v3 : Int,
      bus_read_n 3 (bus_write_all [] [v1, v2, v3]) = some ([v1, v2, v3], [])) ∧
    (∀ vs : List Int, vs ≠ [] →
      bus_read_n vs.length (bus_write_all [] vs) = some (vs, [])) := by
  have hgen : ∀ vs : List Int, bus_read_n vs.length (bus_write_all [] vs) = some (vs, []) := by
    intro vs
    rw [bus_write_all_eq]
    simpa using bus_read_n_append vs []
  exact ⟨fun v1 v2 v3 => hgen [v1, v2, v3], fun vs _ => hgen vs⟩

theorem bus_fifo_witness :
    ([1, 2, 3] : List Int) ≠ [] ∧
    bus_read_n 3 (bus_write_all [] [(1 : Int), 2, 3]) = some ([1, 2, 3], []) :=
  ⟨by decide, bus_fifo.2 [1, 2, 3] (by decide)⟩

/-- Claim C5: if the fetched latch holds an instruction word w (any
signed 20-bit word, including negative ones whose bit 19 is set), DECODE
stores (opcode, operand) = (bits [16,20), bits [0,16)) of w's 20-bit
unsigned pattern in the decoded latch and clears the fetched latch; if
the fetched latch is empty, DECODE changes nothing. -/
theorem decode_stage :
    (∀ (s : CU) (w : Int), s.pipeline_fetch = some w →
      -2 ^ 19 ≤ w → w ≤ 2 ^ 19 - 1 →
      (decode s).pipeline_decode =
        some ((((to_unsigned w).toNat / 2 ^ 16 % 2 ^ 4 : Nat) : Int),
              (((to_unsigned w).toNat % 2 ^ 16 : Nat) : Int)) ∧
      (decode s).pipeline_fetch = none) ∧
    (∀ s : CU, s.pipeline_fetch = none → decode s = s) := by
  constructor
  · intro s w hf h1 h2
    have hds : decode s = { s with
        pipeline_decode := some (Int.land (w >>> (16 : Int)) 15, Int.land w 65535),
        pipeline_fetch := none } := by
      unfold decode
      rw [hf]
    rw [hds]
    refine ⟨?_, rfl⟩
    show some (Int.land (w >>> (16 : Int)) 15, Int.land w 65535) = _
    rw [land_mask4, land_mask16, to_unsigned_eq]
    norm_num at h1 h2 ⊢
    have h16 : (16 : Int) = ((16 : Nat) : Int) := rfl
    have hA : (w >>> (16 : Int)) % 16 = (((w % 1048576).toNat / 65536 % 16 : Nat) : Int) := by
      cases w with
      | ofNat m =>
        have hc : Int.ofNat m = ((m : Nat) : Int) := rfl
        rw [hc, h16, Int.shiftRight_coe_nat, Nat.shiftRight_eq_div_pow]
        omega
      | negSucc m =>
        rw [h16, Int.shiftRight_negSucc, Nat.shiftRight_eq_div_pow]
        simp only [Int.negSucc_eq] at h1 h2 ⊢
        omega
    have hB : w % 65536 = (((w % 1048576).toNat % 65536 : Nat) : Int) := by omega
    rw [hA, hB]
    constructor <;> omega
  · intro s hf
    unfold decode
    rw [hf]

theorem decode_stage_witness :
    (CUdec.pipeline_fetch = some (-1) ∧ -2 ^ 19 ≤ (-1 : Int) ∧ (-1 : Int) ≤ 2 ^ 19 - 1) ∧
    ((decode CUdec).pipeline_decode =
        some ((((to_unsigned (-1)).toNat / 2 ^ 16 % 2 ^ 4 : Nat) : Int),
              (((to_unsigned (-1)).toNat % 2 ^ 16 : Nat) : Int)) ∧
      (decode CUdec).pipeline_fetch = none) :=
  ⟨⟨rfl, by norm_num, by norm_num⟩,
    decode_stage.1 CUdec (-1) rfl (by norm_num) (by norm_num)⟩

/-- Claim C6: executing a decoded instruction whose opcode is outside
0x1..0xB raises ValueError, surfaced to the caller as the Fault outcome,
distinct from the Halt outcome of HLT; the state returned is the entry
state itself, so the accumulator and every memory cell are unchanged. -/
theorem execute_unknown_opcode (s : CU) (inp opcode operand : Int)
    (hd : s.pipeline_decode = some (opcode, operand))
    (hop : opcode < 1 ∨ 11 < opcode) :
    execute s inp = some ⟨Outcome.fault, s, none⟩ ∧
    Outcome.fault ≠ Outcome.halted := by
  have h1 : opcode ≠ 1 := by omega
  have h2 : opcode ≠ 2 := by omega
  have h3 : opcode ≠ 3 := by omega
  have h4 : opcode ≠ 4 := by omega
  have h5 : opcode ≠ 5 := by omega
  have h6 : opcode ≠ 6 := by omega
  have h7 : opcode ≠ 7 := by omega
  have h8 : opcode ≠ 8 := by omega
  have h9 : opcode ≠ 9 := by omega
  have h10 : opcode ≠ 10 := by omega
  have h11 : opcode ≠ 11 := by omega
  refine ⟨?_, by decide⟩
  unfold execute
  rw [hd]
  simp [h1, h2, h3, h4, h5, h6, h7, h8, h9, h10, h11]

theorem execute_unknown_opcode_witness :
    (CUbad.pipeline_decode = some (0, 0) ∧ ((0 : Int) < 1 ∨ 11 < (0 : Int))) ∧
    (execute CUbad 0 = some ⟨Outcome.fault, CUbad, none⟩ ∧
      Outcome.fault ≠ Outcome.halted) :=
  ⟨⟨rfl, Or.inl (by norm_num)⟩,
    execute_unknown_opcode CUbad 0 0 0 rfl (Or.inl (by norm_num))⟩

/-- Claim C8: starting from an empty bus each pipeline stage leaves the
bus empty again — FETCH (with a valid PC), DECODE, and EXECUTE for every
decoded opcode in 0x1..0xB with a valid operand address — and no bus
read inside the stage ever finds the bus empty (the stage evaluates to
some result rather than blocking). -/
theorem stage_bus_balance (s : CU) (p opcode operand inp : Int)
    (hbus : s.bus = [])
    (hpc : reg_get s.pc = p) (hp0 : 0 ≤ p) (hp1 : p ≤ 99)
    (hd : s.pipeline_decode = some (opcode, operand))
    (hop1 : 1 ≤ opcode) (hop2 : opcode ≤ 11)
    (hoperand0 : 0 ≤ operand) (hoperand1 : operand ≤ 99) :
    (∃ s2, fetch s = some s2 ∧ s2.bus = []) ∧
    (decode s).bus = s.bus ∧
    (∃ r, execute s inp = some r ∧ r.state.bus = []) := by
  refine ⟨⟨_, fetch_spec s p hbus hpc hp0 hp1, rfl⟩, ?_, ?_⟩
  · unfold decode
    cases s.pipeline_fetch <;> rfl
  · unfold execute
    rw [hd]
    interval_cases opcode <;>
      simp [ram_read_from_bus, reg_read_from_bus, ram_write_to_bus,
        bus_write, bus_read, hbus]

/-! ### Bitwise operations on signed words versus 20-bit patterns -/

theorem testBit_high {m k i : Nat} (h : m < 2 ^ k) (hik : k ≤ i) : Nat.testBit m i = false :=
  Nat.testBit_lt_two_pow (lt_of_lt_of_le h (Nat.pow_le_pow_right (by norm_num) hik))

theorem ldiff_lt_two_pow {m n k : Nat} (h : m < 2 ^ k) : Nat.ldiff m n < 2 ^ k := by
  apply Nat.lt_pow_two_of_testBit
  intro i hik
  rw [Nat.testBit_ldiff, testBit_high h hik]
  rfl

theorem and_compl_compl {m n : Nat} (hm : m < 2 ^ 20) (hn : n < 2 ^ 20) :
    (2 ^ 20 - (m + 1)) &&& (2 ^ 20 - (n + 1)) = 2 ^ 20 - ((m ||| n) + 1) := by
  have hor : m ||| n < 2 ^ 20 := Nat.or_lt_two_pow hm hn
  apply Nat.eq_of_testBit_eq
  intro i
  rw [Nat.testBit_and, Nat.testBit_two_pow_sub_succ hm, Nat.testBit_two_pow_sub_succ hn,
    Nat.testBit_two_pow_sub_succ hor, Nat.testBit_or]
  by_cases h : i < 20 <;>
    cases hm2 : Nat.testBit m i <;> cases hn2 : Nat.testBit n i <;> simp [h]

theorem or_compl_compl {m n : Nat} (hm : m < 2 ^ 20) (hn : n < 2 ^ 20) :
    (2 ^ 20 - (m + 1)) ||| (2 ^ 20 - (n + 1)) = 2 ^ 20 - ((m &&& n) + 1) := by
  have hand : m &&& n < 2 ^ 20 := Nat.and_lt_two_pow m hn
  apply Nat.eq_of_testBit_eq
  intro i
  rw [Nat.testBit_or, Nat.testBit_two_pow_sub_succ hm, Nat.testBit_two_pow_sub_succ hn,
    Nat.testBit_two_pow_sub_succ hand, Nat.testBit_and]
  by_cases h : i < 20 <;>
    cases hm2 : Nat.testBit m i <;> cases hn2 : Nat.testBit n i <;> simp [h]

theorem xor_compl_compl {m n : Nat} (hm : m < 2 ^ 19) (hn : n < 2 ^ 19) :
    (2 ^ 20 - (m + 1)) ^^^ (2 ^ 20 - (n + 1)) = m ^^^ n := by
  have hm20 : m < 2 ^ 20 := by omega
  have hn20 : n < 2 ^ 20 := by omega
  apply Nat.eq_of_testBit_eq
  intro i
  rw [Nat.testBit_xor, Nat.testBit_two_pow_sub_succ hm20, Nat.testBit_two_pow_sub_succ hn20,
    Nat.testBit_xor]
  by_cases h : i < 20
  · cases hm2 : Nat.testBit m i <;> cases hn2 : Nat.testBit n i <;> simp [h]
  · rw [testBit_high hm (by omega), testBit_high hn (by omega)]
    simp [h]

theorem and_pos_compl {m n : Nat} (hm : m < 2 ^ 19) (hn : n < 2 ^ 20) :
    m &&& (2 ^ 20 - (n + 1)) = Nat.ldiff m n := by
  apply Nat.eq_of_testBit_eq
  intro i
  rw [Nat.testBit_and, Nat.testBit_two_pow_sub_succ hn, Nat.testBit_ldiff]
  by_cases h : i < 20
  · simp [h]
  · rw [testBit_high hm (by omega)]
    simp [h]

theorem and_compl_pos {m n : Nat} (hm : m < 2 ^ 20) (hn : n < 2 ^ 19) :
    (2 ^ 20 - (m + 1)) &&& n = Nat.ldiff n m := by
  apply Nat.eq_of_testBit_eq
  intro i
  rw [Nat.testBit_and, Nat.testBit_two_pow_sub_succ hm, Nat.testBit_ldiff]
  by_cases h : i < 20
  · cases hm2 : Nat.testBit m i <;> cases hn2 : Nat.testBit n i <;> simp [h]
  · rw [testBit_high hn (by omega)]
    simp [h]

theorem or_pos_compl {m n : Nat} (hm : m < 2 ^ 19) (hn : n < 2 ^ 19) :
    m ||| (2 ^ 20 - (n + 1)) = 2 ^ 20 - (Nat.ldiff n m + 1) := by
  have hn20 : n < 2 ^ 20 := by omega
  have hld : Nat.ldiff n m < 2 ^ 20 := ldiff_lt_two_pow hn20
  apply Nat.eq_of_testBit_eq
  intro i
  rw [Nat.testBit_or, Nat.testBit_two_pow_sub_succ hn20, Nat.testBit_two_pow_sub_succ hld,
    Nat.testBit_ldiff]
  by_cases h : i < 20
  · cases hm2 : Nat.testBit m i <;> cases hn2 : Nat.testBit n i <;> simp [h]
  · rw [testBit_high hm (by omega)]
    simp [h]

theorem or_compl_pos {m n : Nat} (hm : m < 2 ^ 19) (hn : n < 2 ^ 19) :
    (2 ^ 20 - (m + 1)) ||| n = 2 ^ 20 - (Nat.ldiff m n + 1) := by
  have hm20 : m < 2 ^ 20 := by omega
  have hld : Nat.ldiff m n < 2 ^ 20 := ldiff_lt_two_pow hm20
  apply Nat.eq_of_testBit_eq
  intro i
  rw [Nat.testBit_or, Nat.testBit_two_pow_sub_succ hm20, Nat.testBit_two_pow_sub_succ hld,
    Nat.testBit_ldiff]
  by_cases h : i < 20
  · cases hm2 : Nat.testBit m i <;> cases hn2 : Nat.testBit n i <;> simp [h]
  · rw [testBit_high hn (by omega)]
    simp [h]

theorem xor_pos_compl {m n : Nat} (hm : m < 2 ^ 19) (hn : n < 2 ^ 19) :
    m ^^^ (2 ^ 20 - (n + 1)) = 2 ^ 20 - ((m ^^^ n) + 1) := by
  have hn20 : n < 2 ^ 20 := by omega
  have hx : m ^^^ n < 2 ^ 20 := Nat.xor_lt_two_pow (by omega) hn20
  apply Nat.eq_of_testBit_eq
  intro i
  rw [Nat.testBit_xor, Nat.testBit_two_pow_sub_succ hn20, Nat.testBit_two_pow_sub_succ hx,
    Nat.testBit_xor]
  by_cases h : i < 20
  · cases hm2 : Nat.testBit m i <;> cases hn2 : Nat.testBit n i <;> simp [h]
  · rw [testBit_high hm (by omega)]
    simp [h]

theorem xor_compl_pos {m n : Nat} (hm : m < 2 ^ 19) (hn : n < 2 ^ 19) :
    (2 ^ 20 - (m + 1)) ^^^ n = 2 ^ 20 - ((m ^^^ n) + 1) := by
  have hm20 : m < 2 ^ 20 := by omega
  have hx : m ^^^ n < 2 ^ 20 := Nat.xor_lt_two_pow hm20 (by omega)
  apply Nat.eq_of_testBit_eq
  intro i
  rw [Nat.testBit_xor, Nat.testBit_two_pow_sub_succ hm20, Nat.testBit_two_pow_sub_succ hx,
    Nat.testBit_xor]
  by_cases h : i < 20
  · cases hm2 : Nat.testBit m i <;> cases hn2 : Nat.testBit n i <;> simp [h]
  · rw [testBit_high hn (by omega)]
    simp [h]

theorem to_unsigned_coe_small {m : Nat} (h : m < 2 ^ 19) :
    to_unsigned ((m : Nat) : Int) = ((m : Nat) : Int) := by
  rw [to_unsigned_eq]
  omega

theorem to_unsigned_negSucc_small {m : Nat} (h : m < 2 ^ 19) :
    to_unsigned (Int.negSucc m) = ((2 ^ 20 - (m + 1) : Nat) : Int) := by
  rw [to_unsigned_eq, Int.negSucc_eq]
  omega

theorem to_signed_coe_small {q : Nat} (h : q < 2 ^ 19) :
    to_signed ((q : Nat) : Int) = ((q : Nat) : Int) := by
  rw [to_signed_eq]
  split <;> omega

theorem to_signed_coe_compl {t : Nat} (h : t < 2 ^ 19) :
    to_signed ((2 ^ 20 - (t + 1) : Nat) : Int) = Int.negSucc t := by
  rw [to_signed_eq, Int.negSucc_eq]
  split <;> omega

theorem land_coe_coe (m n : Nat) :
    Int.land ((m : Nat) : Int) ((n : Nat) : Int) = ((m &&& n : Nat) : Int) := rfl

theorem land_coe_negSucc (m n : Nat) :
    Int.land ((m : Nat) : Int) (Int.negSucc n) = ((Nat.ldiff m n : Nat) : Int) := rfl

theorem land_negSucc_coe (m n : Nat) :
    Int.land (Int.negSucc m) ((n : Nat) : Int) = ((Nat.ldiff n m : Nat) : Int) := rfl

theorem land_negSucc_negSucc (m n : Nat) :
    Int.land (Int.negSucc m) (Int.negSucc n) = Int.negSucc (m ||| n) := rfl

theorem lor_coe_coe (m n : Nat) :
    Int.lor ((m : Nat) : Int) ((n : Nat) : Int) = ((m ||| n : Nat) : Int) := rfl

theorem lor_coe_negSucc (m n : Nat) :
    Int.lor ((m : Nat) : Int) (Int.negSucc n) = Int.negSucc (Nat.ldiff n m) := rfl

theorem lor_negSucc_coe (m n : Nat) :
    Int.lor (Int.negSucc m) ((n : Nat) : Int) = Int.negSucc (Nat.ldiff m n) := rfl

theorem lor_negSucc_negSucc (m n : Nat) :
    Int.lor (Int.negSucc m) (Int.negSucc n) = Int.negSucc (m &&& n) := rfl

theorem xor_coe_coe (m n : Nat) :
    Int.xor ((m : Nat) : Int) ((n : Nat) : Int) = ((m ^^^ n : Nat) : Int) := rfl

theorem xor_coe_negSucc (m n : Nat) :
    Int.xor ((m : Nat) : Int) (Int.negSucc n) = Int.negSucc (m ^^^ n) := rfl

theorem xor_negSucc_coe (m n : Nat) :
    Int.xor (Int.negSucc m) ((n : Nat) : Int) = Int.negSucc (m ^^^ n) := rfl

theorem xor_negSucc_negSucc (m n : Nat) :
    Int.xor (Int.negSucc m) (Int.negSucc n) = ((m ^^^ n : Nat) : Int) := rfl

theorem land_signed (a b : Int)
    (ha1 : -2 ^ 19 ≤ a) (ha2 : a ≤ 2 ^ 19 - 1)
    (hb1 : -2 ^ 19 ≤ b) (hb2 : b ≤ 2 ^ 19 - 1) :
    Int.land a b = to_signed (Int.land (to_unsigned a) (to_unsigned b)) ∧
    -2 ^ 19 ≤ Int.land a b ∧ Int.land a b ≤ 2 ^ 19 - 1 := by
  cases a with
  | ofNat m =>
    rw [show Int.ofNat m = ((m : Nat) : Int) from rfl] at ha1 ha2 ⊢
    have hm : m < 2 ^ 19 := by omega
    cases b with
    | ofNat n =>
      rw [show Int.ofNat n = ((n : Nat) : Int) from rfl] at hb1 hb2 ⊢
      have hn : n < 2 ^ 19 := by omega
      rw [to_unsigned_coe_small hm, to_unsigned_coe_small hn, land_coe_coe,
        to_signed_coe_small (Nat.and_lt_two_pow m hn)]
      have := Nat.and_lt_two_pow m hn
      refine ⟨rfl, by omega, by omega⟩
    | negSucc n =>
      simp only [Int.negSucc_eq] at hb1 hb2
      have hn : n < 2 ^ 19 := by omega
      rw [to_unsigned_coe_small hm, to_unsigned_negSucc_small hn, land_coe_coe,
        and_pos_compl hm (by omega), land_coe_negSucc,
        to_signed_coe_small (ldiff_lt_two_pow hm)]
      have := ldiff_lt_two_pow (n := n) hm
      refine ⟨rfl, by omega, by omega⟩
  | negSucc m =>
    simp only [Int.negSucc_eq] at ha1 ha2
    have hm : m < 2 ^ 19 := by omega
    cases b with
    | ofNat n =>
      rw [show Int.ofNat n = ((n : Nat) : Int) from rfl] at hb1 hb2 ⊢
      have hn : n < 2 ^ 19 := by omega
      rw [to_unsigned_negSucc_small hm, to_unsigned_coe_small hn, land_coe_coe,
        and_compl_pos (by omega) hn, land_negSucc_coe,
        to_signed_coe_small (ldiff_lt_two_pow hn)]
      have := ldiff_lt_two_pow (n := m) hn
      refine ⟨rfl, by omega, by omega⟩
    | negSucc n =>
      simp only [Int.negSucc_eq] at hb1 hb2
      have hn : n < 2 ^ 19 := by omega
      have hor : m ||| n < 2 ^ 19 := Nat.or_lt_two_pow hm hn
      rw [to_unsigned_negSucc_small hm, to_unsigned_negSucc_small hn, land_coe_coe,
        and_compl_compl (by omega) (by omega), land_negSucc_negSucc,
        to_signed_coe_compl hor]
      refine ⟨rfl, ?_, ?_⟩ <;> simp only [Int.negSucc_eq] <;> omega

theorem lor_signed (a b : Int)
    (ha1 : -2 ^ 19 ≤ a) (ha2 : a ≤ 2 ^ 19 - 1)
    (hb1 : -2 ^ 19 ≤ b) (hb2 : b ≤ 2 ^ 19 - 1) :
    Int.lor a b = to_signed (Int.lor (to_unsigned a) (to_unsigned b)) ∧
    -2 ^ 19 ≤ Int.lor a b ∧ Int.lor a b ≤ 2 ^ 19 - 1 := by
  cases a with
  | ofNat m =>
    rw [show Int.ofNat m = ((m : Nat) : Int) from rfl] at ha1 ha2 ⊢
    have hm : m < 2 ^ 19 := by omega
    cases b with
    | ofNat n =>
      rw [show Int.ofNat n = ((n : Nat) : Int) from rfl] at hb1 hb2 ⊢
      have hn : n < 2 ^ 19 := by omega
      have hor : m ||| n < 2 ^ 19 := Nat.or_lt_two_pow hm hn
      rw [to_unsigned_coe_small hm, to_unsigned_coe_small hn, lor_coe_coe,
        to_signed_coe_small hor]
      refine ⟨rfl, by omega, by omega⟩
    | negSucc n =>
      simp only [Int.negSucc_eq] at hb1 hb2
      have hn : n < 2 ^ 19 := by omega
      have hld : Nat.ldiff n m < 2 ^ 19 := ldiff_lt_two_pow hn
      rw [to_unsigned_coe_small hm, to_unsigned_negSucc_small hn, lor_coe_coe,
        or_pos_compl hm hn, lor_coe_negSucc, to_signed_coe_compl hld]
      refine ⟨rfl, ?_, ?_⟩ <;> simp only [Int.negSucc_eq] <;> omega
  | negSucc m =>
    simp only [Int.negSucc_eq] at ha1 ha2
    have hm : m < 2 ^ 19 := by omega
    cases b with
    | ofNat n =>
      rw [show Int.ofNat n = ((n : Nat) : Int) from rfl] at hb1 hb2 ⊢
      have hn : n < 2 ^ 19 := by omega
      have hld : Nat.ldiff m n < 2 ^ 19 := ldiff_lt_two_pow hm
      rw [to_unsigned_negSucc_small hm, to_unsigned_coe_small hn, lor_coe_coe,
        or_compl_pos hm hn, lor_negSucc_coe, to_signed_coe_compl hld]
      refine ⟨rfl, ?_, ?_⟩ <;> simp only [Int.negSucc_eq] <;> omega
    | negSucc n =>
      simp only [Int.negSucc_eq] at hb1 hb2
      have hn : n < 2 ^ 19 := by omega
      have hand : m &&& n < 2 ^ 19 := Nat.and_lt_two_pow m hn
      rw [to_unsigned_negSucc_small hm, to_unsigned_negSucc_small hn, lor_coe_coe,
        or_compl_compl (by omega) (by omega), lor_negSucc_negSucc,
        to_signed_coe_compl hand]
      refine ⟨rfl, ?_, ?_⟩ <;> simp only [Int.negSucc_eq] <;> omega

theorem xor_signed (a b : Int)
    (ha1 : -2 ^ 19 ≤ a) (ha2 : a ≤ 2 ^ 19 - 1)
    (hb1 : -2 ^ 19 ≤ b) (hb2 : b ≤ 2 ^ 19 - 1) :
    Int.xor a b = to_signed (Int.xor (to_unsigned a) (to_unsigned b)) ∧
    -2 ^ 19 ≤ Int.xor a b ∧ Int.xor a b ≤ 2 ^ 19 - 1 := by
  cases a with
  | ofNat m =>
    rw [show Int.ofNat m = ((m : Nat) : Int) from rfl] at ha1 ha2 ⊢
    have hm : m < 2 ^ 19 := by omega
    cases b with
    | ofNat n =>
      rw [show Int.ofNat n = ((n : Nat) : Int) from rfl] at hb1 hb2 ⊢
      have hn : n < 2 ^ 19 := by omega
      have hx : m ^^^ n < 2 ^ 19 := Nat.xor_lt_two_pow hm hn
      rw [to_unsigned_coe_small hm, to_unsigned_coe_small hn, xor_coe_coe,
        to_signed_coe_small hx]
      refine ⟨rfl, by omega, by omega⟩
    | negSucc n =>
      simp only [Int.negSucc_eq] at hb1 hb2
      have hn : n < 2 ^ 19 := by omega
      have hx : m ^^^ n < 2 ^ 19 := Nat.xor_lt_two_pow hm hn
      rw [to_unsigned_coe_small hm, to_unsigned_negSucc_small hn, xor_coe_coe,
        xor_pos_compl hm hn, xor_coe_negSucc, to_signed_coe_compl hx]
      refine ⟨rfl, ?_, ?_⟩ <;> simp only [Int.negSucc_eq] <;> omega
  | negSucc m =>
    simp only [Int.negSucc_eq] at ha1 ha2
    have hm : m < 2 ^ 19 := by omega
    cases b with
    | ofNat n =>
      rw [show Int.ofNat n = ((n : Nat) : Int) from rfl] at hb1 hb2 ⊢
      have hn : n < 2 ^ 19 := by omega
      have hx : m ^^^ n < 2 ^ 19 := Nat.xor_lt_two_pow hm hn
      rw [to_unsigned_negSucc_small hm, to_unsigned_coe_small hn, xor_coe_coe,
        xor_compl_pos hm hn, xor_negSucc_coe, to_signed_coe_compl hx]
      refine ⟨rfl, ?_, ?_⟩ <;> simp only [Int.negSucc_eq] <;> omega
    | negSucc n =>
      simp only [Int.negSucc_eq] at hb1 hb2
      have hn : n < 2 ^ 19 := by omega
      have hx : m ^^^ n < 2 ^ 19 := Nat.xor_lt_two_pow hm hn
      rw [to_unsigned_negSucc_small hm, to_unsigned_negSucc_small hn, xor_coe_coe,
        xor_compl_compl hm hn, xor_negSucc_negSucc, to_signed_coe_small hx]
      refine ⟨rfl, by omega, by omega⟩

/-- Claim C10: for signed 20-bit words a and b, the bitwise ALU
operations and_, or_, xor_ — computed by applying Python's bitwise
operator directly to the signed integers — stay inside
[-2^19, 2^19 - 1] and coincide with to_signed of the same bitwise
operation applied to the 20-bit unsigned patterns to_unsigned a and
to_unsigned b: the two candidate semantics agree on the signed domain. -/
theorem alu_bitwise_two_semantics (a b : Int)
    (ha1 : -2 ^ 19 ≤ a) (ha2 : a ≤ 2 ^ 19 - 1)
    (hb1 : -2 ^ 19 ≤ b) (hb2 : b ≤ 2 ^ 19 - 1) :
    (ALU.and_ a b = to_signed (Int.land (to_unsigned a) (to_unsigned b)) ∧
      -2 ^ 19 ≤ ALU.and_ a b ∧ ALU.and_ a b ≤ 2 ^ 19 - 1) ∧
    (ALU.or_ a b = to_signed (Int.lor (to_unsigned a) (to_unsigned b)) ∧
      -2 ^ 19 ≤ ALU.or_ a b ∧ ALU.or_ a b ≤ 2 ^ 19 - 1) ∧
    (ALU.xor_ a b = to_signed (Int.xor (to_unsigned a) (to_unsigned b)) ∧
      -2 ^ 19 ≤ ALU.xor_ a b ∧ ALU.xor_ a b ≤ 2 ^ 19 - 1) := by
  unfold ALU.and_ ALU.or_ ALU.xor_
  exact ⟨land_signed a b ha1 ha2 hb1 hb2, lor_signed a b ha1 ha2 hb1 hb2,
    xor_signed a b ha1 ha2 hb1 hb2⟩

theorem alu_bitwise_two_semantics_witness :
    (-2 ^ 19 ≤ (-3 : Int) ∧ (-3 : Int) ≤ 2 ^ 19 - 1 ∧
     -2 ^ 19 ≤ (5 : Int) ∧ (5 : Int) ≤ 2 ^ 19 - 1) ∧
    ((ALU.and_ (-3) 5 = to_signed (Int.land (to_unsigned (-3)) (to_unsigned 5)) ∧
      -2 ^ 19 ≤ ALU.and_ (-3) 5 ∧ ALU.and_ (-3) 5 ≤ 2 ^ 19 - 1) ∧
     (ALU.or_ (-3) 5 = to_signed (Int.lor (to_unsigned (-3)) (to_unsigned 5)) ∧
      -2 ^ 19 ≤ ALU.or_ (-3) 5 ∧ ALU.or_ (-3) 5 ≤ 2 ^ 19 - 1) ∧
     (ALU.xor_ (-3) 5 = to_signed (Int.xor (to_unsigned (-3)) (to_unsigned 5)) ∧
      -2 ^ 19 ≤ ALU.xor_ (-3) 5 ∧ ALU.xor_ (-3) 5 ≤ 2 ^ 19 - 1)) :=
  ⟨⟨by norm_num, by norm_num, by norm_num, by norm_num⟩,
    alu_bitwise_two_semantics (-3) 5 (by norm_num) (by norm_num) (by norm_num) (by norm_num)⟩

theorem stage_bus_balance_witness :
    (CUlda.bus = [] ∧ reg_get CUlda.pc = 0 ∧ (0 : Int) ≤ 0 ∧ (0 : Int) ≤ 99 ∧
     CUlda.pipeline_decode = some (1, 0) ∧ (1 : Int) ≤ 1 ∧ (1 : Int) ≤ 11 ∧
     (0 : Int) ≤ 0 ∧ (0 : Int) ≤ 99) ∧
    ((∃ s2, fetch CUlda = some s2 ∧ s2.bus = []) ∧
     (decode CUlda).bus = CUlda.bus ∧
     (∃ r, execute CUlda 0 = some r ∧ r.state.bus = [])) :=
  ⟨⟨rfl, by decide, by decide, by decide, rfl, by decide, by decide, by decide, by decide⟩,
    stage_bus_balance CUlda 0 1 0 0 rfl (by decide) (by decide) (by decide) rfl
      (by decide) (by decide) (by decide) (by decide)⟩

end VN
